import Mathlib

/-!
# Verification of the DynamoDB document-client wrapper

A shallow embedding of `src/wrapper.js` (class `DynamoDBDocumentClient`).

Modelling decisions:

* Attribute values are a small JSON-like type `DVal`; items and primary keys
  are association lists `List (String × DVal)` (JavaScript objects preserve
  insertion order for string keys, which association lists capture).
* JavaScript object assignment `obj[k] = v` is `assocSet` (update in place if
  the key is present, append otherwise); property read `obj[k]` is `assocGet`.
* The underlying AWS SDK client methods (`get`, `put`, `delete`, `scan`) take
  a callback `(err, data)`; under the SDK's documented contract exactly one of
  the two is set, so a client is embedded as a function from the request
  parameters to `Except Err data`.  The promise executor's
  `if (err) reject(err) else resolve(data)` is the corresponding `match`.
* The paginated scan loop recurses on the `LastEvaluatedKey` continuation
  token; the embedding uses explicit fuel and additionally records the trace
  of issued scan requests so that sequencing claims can be stated.
-/

/-- A DynamoDB attribute value (simplified JSON-like scalar). -/
inductive DVal where
  | str (s : String)
  | num (n : Int)
  | boolean (b : Bool)
deriving DecidableEq, Repr

/-- An item (or a primary key): a mapping from attribute name to value. -/
abbrev Item := List (String × DVal)

/-- An error object delivered by the underlying client, kept opaque. -/
abbrev Err := String

/-- JavaScript property read `m[k]`: first binding of `k`, if any. -/
def assocGet {β : Type} (m : List (String × β)) (k : String) : Option β :=
  match m with
  | [] => none
  | (k', v) :: rest => if k' = k then some v else assocGet rest k

/-- JavaScript property assignment `m[k] = v`: replace in place when `k` is
already bound, append otherwise. -/
def assocSet {β : Type} (m : List (String × β)) (k : String) (v : β) :
    List (String × β) :=
  match m with
  | [] => [(k, v)]
  | (k', v') :: rest =>
    if k' = k then (k, v) :: rest else (k', v') :: assocSet rest k v

theorem assocGet_assocSet_self {β : Type} (m : List (String × β)) (k : String) (v : β) :
    assocGet (assocSet m k v) k = some v := by
  induction m with
  | nil => simp [assocGet, assocSet]
  | cons p rest ih =>
    obtain ⟨k', v'⟩ := p
    by_cases h : k' = k
    · simp [assocGet, assocSet, h]
    · simp [assocGet, assocSet, h, ih]

theorem assocGet_eq_none_iff {β : Type} (m : List (String × β)) (k : String) :
    assocGet m k = none ↔ k ∉ m.map Prod.fst := by
  induction m with
  | nil => simp [assocGet]
  | cons p rest ih =>
    obtain ⟨k', v'⟩ := p
    by_cases h : k' = k
    · simp [assocGet, h]
    · simp [assocGet, h, ih, Ne.symm h]

theorem assocSet_eq_append {β : Type} (m : List (String × β)) (k : String) (v : β)
    (h : assocGet m k = none) : assocSet m k v = m ++ [(k, v)] := by
  induction m with
  | nil => simp [assocSet]
  | cons p rest ih =>
    obtain ⟨k', v'⟩ := p
    by_cases hk : k' = k
    · simp [assocGet, hk] at h
    · simp [assocGet, hk] at h
      simp [assocSet, hk, ih h]

/-! ## The condition-expression builder (`buildConditionExpression`) -/

/-- The record returned by `buildConditionExpression`:
`{ expression, names, values }`. -/
structure BuiltCondition where
  expression : String
  names : List (String × String)
  values : List (String × DVal)
deriving DecidableEq, Repr

/-- The text that `comparison[key]` contributes to the template string
`` `${attributeName} ${comparisonOperator} ${attributeValue}` ``: the bound
operator, or the literal `"undefined"` when `key` is absent (JavaScript
renders the `undefined` value as that text). -/
def comparisonOperatorText (comparison : List (String × String)) (key : String) :
    String :=
  match assocGet comparison key with
  | some op => op
  | none => "undefined"

/-- One clause of the condition expression:
`#key <operator> :key` as produced by the template string. -/
def conditionClause (comparison : List (String × String)) (key : String) : String :=
  "#" ++ key ++ " " ++ comparisonOperatorText comparison key ++ " " ++ ":" ++ key

/-- The `for (const key in expression)` loop of `buildConditionExpression`,
threading the accumulated record: bind `#key` and `:key`, and append the
clause, preceded by `" AND "` exactly when the accumulated string is
nonempty (`expressionString.length > 0`). -/
def buildConditionLoop (comparison : List (String × String)) :
    List (String × DVal) → BuiltCondition → BuiltCondition
  | [], acc => acc
  | (key, v) :: rest, acc =>
    buildConditionLoop comparison rest
      ⟨if acc.expression.length > 0 then
          acc.expression ++ " AND " ++ conditionClause comparison key
        else
          acc.expression ++ conditionClause comparison key,
        assocSet acc.names ("#" ++ key) key,
        assocSet acc.values (":" ++ key) v⟩

/-- `buildConditionExpression(expression, comparison)` from `src/wrapper.js`:
iterates the keys of `expression` in insertion order, emitting one clause per
key and the two placeholder-binding mappings. -/
def buildConditionExpression (expression : List (String × DVal))
    (comparison : List (String × String)) : BuiltCondition :=
  buildConditionLoop comparison expression ⟨"", [], []⟩

/-- Joining a list of clauses with the fixed `" AND "` separator:
`n` clauses give `n - 1` separators. -/
def joinAnd : List String → String
  | [] => ""
  | [c] => c
  | c :: c' :: rest => c ++ " AND " ++ joinAnd (c' :: rest)

example :
    buildConditionExpression [("a", DVal.num 1), ("b", DVal.num 2)]
      [("a", "="), ("b", "<>")] =
    ⟨"#a = :a AND #b <> :b", [("#a", "a"), ("#b", "b")],
      [(":a", DVal.num 1), (":b", DVal.num 2)]⟩ := by decide

example :
    (buildConditionExpression [("a", DVal.num 1)] []).expression =
      "#a undefined :a" := by decide

example :
    joinAnd ["x", "y", "z"] = "x AND y AND z" := by decide

/-! ## Lemmas about the builder -/

theorem string_append_left_cancel {c a b : String} (h : c ++ a = c ++ b) : a = b := by
  have hd := congrArg String.data h
  rw [String.data_append, String.data_append] at hd
  exact String.ext (List.append_cancel_left hd)

theorem conditionClause_length_pos (ops : List (String × String)) (k : String) :
    0 < (conditionClause ops k).length := by
  unfold conditionClause
  simp only [String.length_append]
  have h1 : ("#" : String).length = 1 := rfl
  omega

theorem joinAnd_cons_append (a c : String) (cs : List String) :
    joinAnd ((a ++ " AND " ++ c) :: cs) = a ++ " AND " ++ joinAnd (c :: cs) := by
  cases cs with
  | nil => rfl
  | cons c2 rest => simp [joinAnd, String.append_assoc]

theorem buildConditionLoop_expression (ops : List (String × String))
    (ev : List (String × DVal)) :
    ∀ acc : BuiltCondition, acc.expression.length > 0 →
      (buildConditionLoop ops ev acc).expression =
        joinAnd (acc.expression :: ev.map fun p => conditionClause ops p.1) := by
  induction ev with
  | nil => intro acc _; simp [buildConditionLoop, joinAnd]
  | cons p rest ih =>
    intro acc h
    obtain ⟨k, v⟩ := p
    have hpos : (acc.expression ++ " AND " ++ conditionClause ops k).length > 0 := by
      rw [String.length_append, String.length_append]
      omega
    simp only [buildConditionLoop]
    rw [if_pos h, ih _ hpos, List.map_cons, joinAnd_cons_append]
    simp [joinAnd]

theorem buildConditionLoop_names (ops : List (String × String))
    (ev : List (String × DVal)) :
    ∀ acc : BuiltCondition,
      (ev.map Prod.fst).Nodup →
      (∀ k ∈ ev.map Prod.fst, ("#" ++ k) ∉ acc.names.map Prod.fst) →
      (buildConditionLoop ops ev acc).names =
        acc.names ++ ev.map (fun p => ("#" ++ p.1, p.1)) := by
  induction ev with
  | nil => intro acc _ _; simp [buildConditionLoop]
  | cons p rest ih =>
    intro acc hnd hfresh
    obtain ⟨k, v⟩ := p
    rw [List.map_cons] at hnd
    obtain ⟨hkrest, hnd'⟩ := List.nodup_cons.mp hnd
    have hk : ("#" ++ k) ∉ acc.names.map Prod.fst := hfresh k (by simp)
    have hset : assocSet acc.names ("#" ++ k) k = acc.names ++ [("#" ++ k, k)] :=
      assocSet_eq_append _ _ _ ((assocGet_eq_none_iff _ _).mpr hk)
    have hfresh' : ∀ k' ∈ rest.map Prod.fst,
        ("#" ++ k') ∉ (assocSet acc.names ("#" ++ k) k).map Prod.fst := by
      intro k' hk'
      rw [hset, List.map_append]
      intro hmem
      rcases List.mem_append.mp hmem with hmem1 | hmem2
      · exact hfresh k' (by simp [hk']) hmem1
      · simp only [List.map_cons, List.map_nil, List.mem_singleton] at hmem2
        exact hkrest (string_append_left_cancel hmem2 ▸ hk')
    simp only [buildConditionLoop]
    rw [ih _ hnd' hfresh']
    simp [hset, List.append_assoc]

theorem buildConditionLoop_values (ops : List (String × String))
    (ev : List (String × DVal)) :
    ∀ acc : BuiltCondition,
      (ev.map Prod.fst).Nodup →
      (∀ k ∈ ev.map Prod.fst, (":" ++ k) ∉ acc.values.map Prod.fst) →
      (buildConditionLoop ops ev acc).values =
        acc.values ++ ev.map (fun p => (":" ++ p.1, p.2)) := by
  induction ev with
  | nil => intro acc _ _; simp [buildConditionLoop]
  | cons p rest ih =>
    intro acc hnd hfresh
    obtain ⟨k, v⟩ := p
    rw [List.map_cons] at hnd
    obtain ⟨hkrest, hnd'⟩ := List.nodup_cons.mp hnd
    have hk : (":" ++ k) ∉ acc.values.map Prod.fst := hfresh k (by simp)
    have hset : assocSet acc.values (":" ++ k) v = acc.values ++ [(":" ++ k, v)] :=
      assocSet_eq_append _ _ _ ((assocGet_eq_none_iff _ _).mpr hk)
    have hfresh' : ∀ k' ∈ rest.map Prod.fst,
        (":" ++ k') ∉ (assocSet acc.values (":" ++ k) v).map Prod.fst := by
      intro k' hk'
      rw [hset, List.map_append]
      intro hmem
      rcases List.mem_append.mp hmem with hmem1 | hmem2
      · exact hfresh k' (by simp [hk']) hmem1
      · simp only [List.map_cons, List.map_nil, List.mem_singleton] at hmem2
        exact hkrest (string_append_left_cancel hmem2 ▸ hk')
    simp only [buildConditionLoop]
    rw [ih _ hnd' hfresh']
    simp [hset, List.append_assoc]

theorem assocGet_map_hash (ev : List (String × DVal)) (k : String) (v : DVal) :
    (ev.map Prod.fst).Nodup → (k, v) ∈ ev →
    assocGet (ev.map fun p => ("#" ++ p.1, p.1)) ("#" ++ k) = some k := by
  induction ev with
  | nil => intro _ hmem; cases hmem
  | cons p rest ih =>
    intro hnd hmem
    obtain ⟨k0, v0⟩ := p
    rw [List.map_cons] at hnd
    obtain ⟨hk0, hnd'⟩ := List.nodup_cons.mp hnd
    by_cases h : k0 = k
    · subst h
      simp [assocGet]
    · have hne : ("#" ++ k0) ≠ ("#" ++ k) := fun hc => h (string_append_left_cancel hc)
      rcases List.mem_cons.mp hmem with heq | hmem'
      · exact absurd (congrArg Prod.fst heq.symm) h
      · simp only [List.map_cons, assocGet]
        rw [if_neg hne]
        exact ih hnd' hmem'

theorem assocGet_map_colon (ev : List (String × DVal)) (k : String) (v : DVal) :
    (ev.map Prod.fst).Nodup → (k, v) ∈ ev →
    assocGet (ev.map fun p => (":" ++ p.1, p.2)) (":" ++ k) = some v := by
  induction ev with
  | nil => intro _ hmem; cases hmem
  | cons p rest ih =>
    intro hnd hmem
    obtain ⟨k0, v0⟩ := p
    rw [List.map_cons] at hnd
    obtain ⟨hk0, hnd'⟩ := List.nodup_cons.mp hnd
    by_cases h : k0 = k
    · subst h
      rcases List.mem_cons.mp hmem with heq | hmem'
      · obtain ⟨-, hv⟩ := Prod.mk.injEq .. ▸ heq.symm
        subst hv
        simp [assocGet]
      · exact absurd (List.mem_map_of_mem Prod.fst hmem') hk0
    · have hne : (":" ++ k0) ≠ (":" ++ k) := fun hc => h (string_append_left_cancel hc)
      rcases List.mem_cons.mp hmem with heq | hmem'
      · exact absurd (congrArg Prod.fst heq.symm) h
      · simp only [List.map_cons, assocGet]
        rw [if_neg hne]
        exact ih hnd' hmem'

theorem joinAnd_mem_decomp (c : String) :
    ∀ cs : List String, c ∈ cs → ∃ p q, joinAnd cs = p ++ c ++ q := by
  intro cs
  induction cs with
  | nil => intro h; cases h
  | cons c0 rest ih =>
    intro h
    rcases List.mem_cons.mp h with rfl | hmem
    · cases rest with
      | nil => exact ⟨"", "", by simp [joinAnd]⟩
      | cons c1 r =>
        refine ⟨"", " AND " ++ joinAnd (c1 :: r), ?_⟩
        simp [joinAnd, String.append_assoc]
    · obtain ⟨p, q, hpq⟩ := ih hmem
      cases rest with
      | nil => cases hmem
      | cons c1 r =>
        refine ⟨c0 ++ " AND " ++ p, q, ?_⟩
        simp [joinAnd, hpq, String.append_assoc]

theorem buildConditionExpression_maps (ev : List (String × DVal))
    (ops : List (String × String)) (hnd : (ev.map Prod.fst).Nodup) :
    (buildConditionExpression ev ops).expression =
      joinAnd (ev.map fun p => conditionClause ops p.1) ∧
    (buildConditionExpression ev ops).names = ev.map (fun p => ("#" ++ p.1, p.1)) ∧
    (buildConditionExpression ev ops).values = ev.map (fun p => (":" ++ p.1, p.2)) := by
  cases ev with
  | nil => exact ⟨rfl, rfl, rfl⟩
  | cons p rest =>
    obtain ⟨k, v⟩ := p
    rw [List.map_cons] at hnd
    obtain ⟨hkrest, hnd'⟩ := List.nodup_cons.mp hnd
    have hempty : ¬(("" : String).length > 0) := by decide
    have hacc : buildConditionExpression ((k, v) :: rest) ops =
        buildConditionLoop ops rest
          ⟨"" ++ conditionClause ops k, [("#" ++ k, k)], [(":" ++ k, v)]⟩ := by
      simp only [buildConditionExpression, buildConditionLoop]
      rw [if_neg hempty]
      rfl
    have hclause : ("" : String) ++ conditionClause ops k = conditionClause ops k :=
      String.empty_append _
    have hpos : (("" : String) ++ conditionClause ops k).length > 0 := by
      rw [hclause]
      exact conditionClause_length_pos ops k
    have hfreshN : ∀ k' ∈ rest.map Prod.fst,
        ("#" ++ k') ∉ ([("#" ++ k, k)] : List (String × String)).map Prod.fst := by
      intro k' hk' hmem
      simp only [List.map_cons, List.map_nil, List.mem_singleton] at hmem
      exact hkrest (string_append_left_cancel hmem ▸ hk')
    have hfreshV : ∀ k' ∈ rest.map Prod.fst,
        (":" ++ k') ∉ ([(":" ++ k, v)] : List (String × DVal)).map Prod.fst := by
      intro k' hk' hmem
      simp only [List.map_cons, List.map_nil, List.mem_singleton] at hmem
      exact hkrest (string_append_left_cancel hmem ▸ hk')
    refine ⟨?_, ?_, ?_⟩
    · rw [hacc, buildConditionLoop_expression ops rest _ hpos, List.map_cons]
      simp [hclause]
    · rw [hacc, buildConditionLoop_names ops rest _ hnd' hfreshN]
      simp
    · rw [hacc, buildConditionLoop_values ops rest _ hnd' hfreshV]
      simp

/-- C1: for every pair of mappings over the same `N` distinct keys (distinct
because JavaScript object keys are unique), `buildConditionExpression`
returns an expression equal to `N` clauses joined by the fixed `" AND "`
separator (hence `N - 1` separators), and the attribute-names and
attribute-values mappings hold exactly `N` entries, binding `#k` to the
attribute name `k` and `:k` to the comparison value of `k`. -/
theorem buildConditionExpression_counts (ev : List (String × DVal))
    (ops : List (String × String)) (hnd : (ev.map Prod.fst).Nodup) :
    (buildConditionExpression ev ops).expression =
      joinAnd (ev.map fun p => conditionClause ops p.1) ∧
    (ev.map fun p => conditionClause ops p.1).length = ev.length ∧
    (buildConditionExpression ev ops).names.length = ev.length ∧
    (buildConditionExpression ev ops).values.length = ev.length ∧
    (∀ k v, (k, v) ∈ ev →
      assocGet (buildConditionExpression ev ops).names ("#" ++ k) = some k ∧
      assocGet (buildConditionExpression ev ops).values (":" ++ k) = some v) := by
  obtain ⟨he, hn, hv⟩ := buildConditionExpression_maps ev ops hnd
  refine ⟨he, by simp, ?_, ?_, ?_⟩
  · rw [hn]
    simp
  · rw [hv]
    simp
  · intro k v hmem
    constructor
    · rw [hn]
      exact assocGet_map_hash ev k v hnd hmem
    · rw [hv]
      exact assocGet_map_colon ev k v hnd hmem

/-- Witness for C1 at two concrete condition mappings. -/
theorem buildConditionExpression_counts_witness :
    ((([("a", DVal.num 1), ("b", DVal.num 2)] : List (String × DVal)).map
        Prod.fst).Nodup) ∧
    (buildConditionExpression [("a", DVal.num 1), ("b", DVal.num 2)]
        [("a", "="), ("b", "<>")]).names.length = 2 ∧
    (buildConditionExpression [("a", DVal.num 1), ("b", DVal.num 2)]
        [("a", "="), ("b", "<>")]).values.length = 2 := by
  refine ⟨by decide, ?_, ?_⟩
  · have h := buildConditionExpression_counts [("a", DVal.num 1), ("b", DVal.num 2)]
      [("a", "="), ("b", "<>")] (by decide)
    simpa using h.2.2.1
  · have h := buildConditionExpression_counts [("a", DVal.num 1), ("b", DVal.num 2)]
      [("a", "="), ("b", "<>")] (by decide)
    simpa using h.2.2.2.1

/-- C8: a comparison-value key absent from the comparison-operator mapping
yields the literal text `undefined` as the operator of that key's clause in
the returned expression string, while the key's placeholder-name and
placeholder-value bindings are still emitted. -/
theorem buildConditionExpression_missing_operator (ev : List (String × DVal))
    (ops : List (String × String)) (k : String) (v : DVal)
    (hnd : (ev.map Prod.fst).Nodup) (hmem : (k, v) ∈ ev)
    (hop : assocGet ops k = none) :
    conditionClause ops k = "#" ++ k ++ " " ++ "undefined" ++ " " ++ ":" ++ k ∧
    ("#" ++ k ++ " " ++ "undefined" ++ " " ++ ":" ++ k) ∈
      ev.map (fun p => conditionClause ops p.1) ∧
    (buildConditionExpression ev ops).expression =
      joinAnd (ev.map fun p => conditionClause ops p.1) ∧
    (∃ pre post, (buildConditionExpression ev ops).expression =
      pre ++ "undefined" ++ post) ∧
    assocGet (buildConditionExpression ev ops).names ("#" ++ k) = some k ∧
    assocGet (buildConditionExpression ev ops).values (":" ++ k) = some v := by
  obtain ⟨he, hn, hv⟩ := buildConditionExpression_maps ev ops hnd
  have hclause : conditionClause ops k =
      "#" ++ k ++ " " ++ "undefined" ++ " " ++ ":" ++ k := by
    unfold conditionClause comparisonOperatorText
    rw [hop]
  have hclausemem : ("#" ++ k ++ " " ++ "undefined" ++ " " ++ ":" ++ k) ∈
      ev.map (fun p => conditionClause ops p.1) := by
    rw [← hclause]
    exact List.mem_map_of_mem _ hmem
  refine ⟨hclause, hclausemem, he, ?_, ?_, ?_⟩
  · obtain ⟨p, q, hpq⟩ := joinAnd_mem_decomp _ _ hclausemem
    refine ⟨p ++ ("#" ++ k ++ " "), " " ++ ":" ++ k ++ q, ?_⟩
    rw [he, hpq]
    simp [String.append_assoc]
    have hlit : (" undefined" : String) ++ " :" = " undefined :" := rfl
    rw [← hlit, String.append_assoc]
  · rw [hn]
    exact assocGet_map_hash ev k v hnd hmem
  · rw [hv]
    exact assocGet_map_colon ev k v hnd hmem

/-- Witness for C8 at a concrete mapping whose only key has no operator. -/
theorem buildConditionExpression_missing_operator_witness :
    ((([("a", DVal.num 1)] : List (String × DVal)).map Prod.fst).Nodup ∧
      ("a", DVal.num 1) ∈ ([("a", DVal.num 1)] : List (String × DVal)) ∧
      assocGet ([] : List (String × String)) "a" = none) ∧
    (∃ pre post, (buildConditionExpression [("a", DVal.num 1)] []).expression =
      pre ++ "undefined" ++ post) := by
  refine ⟨⟨by decide, by decide, by decide⟩, ?_⟩
  have h := buildConditionExpression_missing_operator [("a", DVal.num 1)] []
    "a" (DVal.num 1) (by decide) (by decide) (by decide)
  exact h.2.2.2.1

/-! ## The single-item operations (`getItem`, `putItem`, `deleteItem`)

Each wrapper method builds a structured parameter object and hands it to the
corresponding client method; the promise executor rejects with the delivered
error or resolves with the delivered data, unchanged.  The client itself is a
parameter (the SDK is an external collaborator), embedded as a function from
the parameter object to `Except Err` of its response payload. -/

/-- The parameter object `{ TableName, Key }` of `client.get`. -/
structure GetParams where
  tableName : String
  key : Item
deriving DecidableEq, Repr

/-- The payload delivered by a successful `client.get`: `data.Item` is the
stored item, or absent when no item exists. -/
structure GetData where
  item : Option Item
deriving DecidableEq, Repr

/-- The optional condition fields attached to a `put`/`delete` parameter
object: `ConditionExpression`, `ExpressionAttributeNames`,
`ExpressionAttributeValues`. -/
structure CondParams where
  conditionExpression : String
  expressionAttributeNames : List (String × String)
  expressionAttributeValues : List (String × DVal)
deriving DecidableEq, Repr

/-- The parameter object of `client.put`: `{ TableName, Item }`, plus the
condition fields when both optional arguments were supplied. -/
structure PutParams where
  tableName : String
  item : Item
  cond : Option CondParams
deriving DecidableEq, Repr

/-- The parameter object of `client.delete`: `{ TableName, Key }`, plus the
condition fields when both optional arguments were supplied. -/
structure DeleteParams where
  tableName : String
  key : Item
  cond : Option CondParams
deriving DecidableEq, Repr

/-- The `params` object built by `getItem`. -/
def buildGetParams (tableName : String) (key : Item) : GetParams :=
  ⟨tableName, key⟩

/-- The `params` object built by `putItem`: the condition fields are attached
only when `expression && comparison` holds, i.e. both optional arguments are
non-null. -/
def buildPutParams (tableName : String) (item : Item)
    (expression : Option (List (String × DVal)))
    (comparison : Option (List (String × String))) : PutParams :=
  match expression, comparison with
  | some e, some c =>
    ⟨tableName, item, some ⟨(buildConditionExpression e c).expression,
      (buildConditionExpression e c).names, (buildConditionExpression e c).values⟩⟩
  | _, _ => ⟨tableName, item, none⟩

/-- The `params` object built by `deleteItem`, with the same optional
condition handling as `putItem`. -/
def buildDeleteParams (tableName : String) (key : Item)
    (expression : Option (List (String × DVal)))
    (comparison : Option (List (String × String))) : DeleteParams :=
  match expression, comparison with
  | some e, some c =>
    ⟨tableName, key, some ⟨(buildConditionExpression e c).expression,
      (buildConditionExpression e c).names, (buildConditionExpression e c).values⟩⟩
  | _, _ => ⟨tableName, key, none⟩

/-- `getItem(tableName, key)`: call `client.get` on the built params and
settle the promise from the callback. -/
def getItem {α : Type} (cl : GetParams → Except Err α) (tableName : String)
    (key : Item) : Except Err α :=
  match cl (buildGetParams tableName key) with
  | .error e => .error e
  | .ok d => .ok d

/-- `putItem(tableName, item, expression, comparison)`. -/
def putItem {α : Type} (cl : PutParams → Except Err α) (tableName : String)
    (item : Item) (expression : Option (List (String × DVal)))
    (comparison : Option (List (String × String))) : Except Err α :=
  match cl (buildPutParams tableName item expression comparison) with
  | .error e => .error e
  | .ok d => .ok d

/-- `deleteItem(tableName, key, expression, comparison)`. -/
def deleteItem {α : Type} (cl : DeleteParams → Except Err α) (tableName : String)
    (key : Item) (expression : Option (List (String × DVal)))
    (comparison : Option (List (String × String))) : Except Err α :=
  match cl (buildDeleteParams tableName key expression comparison) with
  | .error e => .error e
  | .ok d => .ok d

/-! ## The remote document store

Modelled from the spec: the underlying document-store client collaborator
(spec section 6) is not part of this repository; per its documented contract
it holds per-table rows addressed by primary key, a put stores the item under
the item's key (the projection of the item onto the table's key attributes,
whose schema the adapter does not validate), and a get returns the stored
item, or an empty payload when no item exists, as success. -/

/-- Rows of one table: primary key to stored item. -/
abbrev TableRows := List (Item × Item)

/-- The remote store: table name to rows. -/
abbrev Store := List (String × TableRows)

/-- Look up a row by primary key (keys compared as whole mappings). -/
def rowGet (rows : TableRows) (key : Item) : Option Item :=
  match rows with
  | [] => none
  | (k, it) :: rest => if k = key then some it else rowGet rest key

/-- Store a row under a primary key, replacing any existing row. -/
def rowSet (rows : TableRows) (key : Item) (it : Item) : TableRows :=
  match rows with
  | [] => [(key, it)]
  | (k, it') :: rest =>
    if k = key then (key, it) :: rest else (k, it') :: rowSet rest key it

theorem rowGet_rowSet_self (rows : TableRows) (key it : Item) :
    rowGet (rowSet rows key it) key = some it := by
  induction rows with
  | nil => simp [rowGet, rowSet]
  | cons p rest ih =>
    obtain ⟨k, it'⟩ := p
    by_cases h : k = key
    · simp [rowGet, rowSet, h]
    · simp [rowGet, rowSet, h, ih]

/-- Modelled from the spec: the primary key of an item is its projection onto
the table's key attributes. -/
def keyOf (schema : List String) (item : Item) : Item :=
  item.filter fun p => schema.contains p.1

/-- Modelled from the spec: the store after the service processes a `put`
request — the item is stored under its key in the request's table. -/
def storeAfterPut (schema : String → List String) (st : Store) (p : PutParams) :
    Store :=
  assocSet st p.tableName
    (rowSet ((assocGet st p.tableName).getD []) (keyOf (schema p.tableName) p.item)
      p.item)

/-- Modelled from the spec: a client whose `put` succeeds and whose response
payload is the updated store (so that the write's effect can be stated). -/
def storePutClient (schema : String → List String) (st : Store) :
    PutParams → Except Err Store :=
  fun p => .ok (storeAfterPut schema st p)

/-- Modelled from the spec: a client whose `get` succeeds with the stored
item under the requested key, delivering an empty payload when none exists
(the "no item" case is success, not an error). -/
def storeGetClient (st : Store) : GetParams → Except Err GetData :=
  fun p => .ok ⟨rowGet ((assocGet st p.tableName).getD []) p.key⟩

/-- C2: writing an item via `putItem` and then reading via `getItem` with the
key the item is stored under resolves with an item equal to what was
written. -/
theorem putItem_then_getItem_roundtrip (schema : String → List String)
    (st : Store) (tableName : String) (key item : Item)
    (hkey : keyOf (schema tableName) item = key) :
    ∃ st' : Store,
      putItem (storePutClient schema st) tableName item none none = .ok st' ∧
      getItem (storeGetClient st') tableName key = .ok ⟨some item⟩ := by
  refine ⟨storeAfterPut schema st (buildPutParams tableName item none none),
    rfl, ?_⟩
  simp only [getItem, storeGetClient, buildGetParams, storeAfterPut,
    buildPutParams]
  rw [assocGet_assocSet_self]
  simp only [Option.getD_some]
  rw [hkey, rowGet_rowSet_self]

/-- Witness for C2: a concrete put/get round trip on an empty store. -/
theorem putItem_then_getItem_roundtrip_witness :
    (keyOf ["id"] [("id", DVal.str "a"), ("v", DVal.num 1)] =
      [("id", DVal.str "a")]) ∧
    (∃ st' : Store,
      putItem (storePutClient (fun _ => ["id"]) []) "T"
        [("id", DVal.str "a"), ("v", DVal.num 1)] none none = .ok st' ∧
      getItem (storeGetClient st') "T" [("id", DVal.str "a")] =
        .ok ⟨some [("id", DVal.str "a"), ("v", DVal.num 1)]⟩) := by
  refine ⟨by decide, ?_⟩
  exact putItem_then_getItem_roundtrip (fun _ => ["id"]) [] "T"
    [("id", DVal.str "a")] [("id", DVal.str "a"), ("v", DVal.num 1)] (by decide)

/-- C7: `getItem` on a table and key with no stored item resolves
successfully with an empty payload; it never rejects in the no-item case. -/
theorem getItem_absent_resolves_empty (st : Store) (tableName : String)
    (key : Item)
    (habsent : rowGet ((assocGet st tableName).getD []) key = none) :
    getItem (storeGetClient st) tableName key = .ok ⟨none⟩ := by
  simp only [getItem, storeGetClient, buildGetParams]
  rw [habsent]

/-- Witness for C7: reading a missing key from an empty store. -/
theorem getItem_absent_resolves_empty_witness :
    (rowGet ((assocGet ([] : Store) "T").getD []) [("id", DVal.str "a")] =
      none) ∧
    getItem (storeGetClient []) "T" [("id", DVal.str "a")] = .ok ⟨none⟩ := by
  refine ⟨by decide, ?_⟩
  exact getItem_absent_resolves_empty [] "T" [("id", DVal.str "a")] (by decide)

/-! ## `scanTable` -/

/-- A scan request: `{ TableName }`, plus `ExclusiveStartKey` when the loop
is continuing from a previous response's `LastEvaluatedKey`. -/
structure ScanReq where
  tableName : String
  exclusiveStartKey : Option Item
deriving DecidableEq, Repr

/-- The client's response to one scan request: the page's `Items` and its
`LastEvaluatedKey` continuation token, or an error. -/
inductive ScanResp where
  | ok (items : List Item) (lastEvaluatedKey : Option Item)
  | err (e : Err)
deriving DecidableEq, Repr

/-- How a `scanTable` promise settles: resolved with items, rejected with an
error, or (an artifact of fuel-based recursion) still pending because the
fuel ran out before the service stopped returning continuation tokens. -/
inductive ScanOutcome where
  | items (xs : List Item)
  | failure (e : Err)
  | pending
deriving DecidableEq, Repr

/-- The `onScan` recursion of `scanTable(tableName, true)`: issue a request
with the current `ExclusiveStartKey`; on error reject; otherwise append
`data.Items` to the accumulator and either recurse on `data.LastEvaluatedKey`
or resolve.  Returns the trace of issued requests together with the
outcome. -/
def scanPaginateLoop (svc : ScanReq → ScanResp) (tableName : String) :
    Nat → Option Item → List Item → List ScanReq × ScanOutcome
  | 0, _, _ => ([], .pending)
  | fuel + 1, startKey, acc =>
    match svc ⟨tableName, startKey⟩ with
    | .err e => ([⟨tableName, startKey⟩], .failure e)
    | .ok its last =>
      match last with
      | none => ([⟨tableName, startKey⟩], .items (acc ++ its))
      | some t =>
        ((⟨tableName, startKey⟩ : ScanReq) ::
            (scanPaginateLoop svc tableName fuel (some t) (acc ++ its)).1,
          (scanPaginateLoop svc tableName fuel (some t) (acc ++ its)).2)

/-- `scanTable(tableName, paginate)`: one request resolving `data.Items` when
`paginate` is false, the accumulating `onScan` recursion when it is true. -/
def scanTable (svc : ScanReq → ScanResp) (tableName : String) (paginate : Bool)
    (fuel : Nat) : List ScanReq × ScanOutcome :=
  if !paginate then
    match svc ⟨tableName, none⟩ with
    | .err e => ([⟨tableName, none⟩], .failure e)
    | .ok its _ => ([⟨tableName, none⟩], .items its)
  else
    scanPaginateLoop svc tableName fuel none []

/-- The service's scan responses starting from `startKey` form the finite
page sequence `ps`: each page records its `Items` and its
`LastEvaluatedKey`, every page but the last carries a continuation token,
the last carries none, and each token is what the next request must send. -/
inductive ScanChain (svc : ScanReq → ScanResp) (tableName : String) :
    Option Item → List (List Item × Option Item) → Prop
  | last {s : Option Item} {its : List Item} :
      svc ⟨tableName, s⟩ = .ok its none →
      ScanChain svc tableName s [(its, none)]
  | step {s : Option Item} {its : List Item} {t : Item}
      {ps : List (List Item × Option Item)} :
      svc ⟨tableName, s⟩ = .ok its (some t) →
      ScanChain svc tableName (some t) ps →
      ScanChain svc tableName s ((its, some t) :: ps)

theorem ScanChain.ne_nil {svc : ScanReq → ScanResp} {tableName : String}
    {s : Option Item} {ps : List (List Item × Option Item)}
    (h : ScanChain svc tableName s ps) : ps ≠ [] := by
  cases h <;> simp

theorem scanPaginateLoop_of_chain (svc : ScanReq → ScanResp) (tableName : String)
    {s : Option Item} {ps : List (List Item × Option Item)}
    (h : ScanChain svc tableName s ps) :
    ∀ fuel : Nat, ps.length ≤ fuel → ∀ acc : List Item,
      scanPaginateLoop svc tableName fuel s acc =
        ((s :: ps.dropLast.map Prod.snd).map fun sk => ScanReq.mk tableName sk,
          .items (acc ++ (ps.map Prod.fst).flatten)) := by
  induction h with
  | @last s its hresp =>
    intro fuel hfuel acc
    match fuel with
    | 0 => simp at hfuel
    | f + 1 =>
      simp only [scanPaginateLoop, hresp]
      simp
  | @step s its t ps hresp htail ih =>
    intro fuel hfuel acc
    match fuel with
    | 0 => simp at hfuel
    | f + 1 =>
      have hf : ps.length ≤ f := by
        simp only [List.length_cons] at hfuel
        omega
      simp only [scanPaginateLoop, hresp, ih f hf (acc ++ its)]
      rw [List.dropLast_cons_of_ne_nil htail.ne_nil]
      simp [List.append_assoc]

/-- C3: when the scan responses form a finite page sequence, the paginated
scan issues one request per page, sequentially, the first with no
`ExclusiveStartKey` and each later one carrying the previous response's
`LastEvaluatedKey`, stops exactly at the first response without a
continuation token, and resolves with the concatenation of every page's
items in request order. -/
theorem scanTable_paginate_collects_pages (svc : ScanReq → ScanResp)
    (tableName : String) (ps : List (List Item × Option Item)) (fuel : Nat)
    (hchain : ScanChain svc tableName none ps) (hfuel : ps.length ≤ fuel) :
    scanTable svc tableName true fuel =
      ((none :: ps.dropLast.map Prod.snd).map fun sk => ScanReq.mk tableName sk,
        .items (ps.map Prod.fst).flatten) ∧
    ((none :: ps.dropLast.map Prod.snd).map fun sk =>
        ScanReq.mk tableName sk).length = ps.length := by
  constructor
  · have h := scanPaginateLoop_of_chain svc tableName hchain fuel hfuel []
    simpa [scanTable] using h
  · have hne := hchain.ne_nil
    have hpos : 0 < ps.length := List.length_pos.mpr hne
    simp [List.length_dropLast]
    omega

/-- A demonstration scan service: a first page with a continuation token,
then a final page without one. -/
def twoPageSvc : ScanReq → ScanResp := fun r =>
  match r.exclusiveStartKey with
  | none => .ok [[("id", DVal.num 1)]] (some [("id", DVal.num 1)])
  | some _ => .ok [[("id", DVal.num 2)]] none

/-- Witness for C3: a concrete two-page scan. -/
theorem scanTable_paginate_collects_pages_witness :
    (ScanChain twoPageSvc "T" none
        [([[("id", DVal.num 1)]], some [("id", DVal.num 1)]),
          ([[("id", DVal.num 2)]], none)] ∧
      ([([[("id", DVal.num 1)]], some [("id", DVal.num 1)]),
          ([[("id", DVal.num 2)]], none)] :
        List (List Item × Option Item)).length ≤ 2) ∧
    scanTable twoPageSvc "T" true 2 =
      ([⟨"T", none⟩, ⟨"T", some [("id", DVal.num 1)]⟩],
        .items [[("id", DVal.num 1)], [("id", DVal.num 2)]]) := by
  have hchain : ScanChain twoPageSvc "T" none
      [([[("id", DVal.num 1)]], some [("id", DVal.num 1)]),
        ([[("id", DVal.num 2)]], none)] :=
    ScanChain.step rfl (ScanChain.last rfl)
  refine ⟨⟨hchain, by decide⟩, ?_⟩
  have h := (scanTable_paginate_collects_pages twoPageSvc "T"
    [([[("id", DVal.num 1)]], some [("id", DVal.num 1)]),
      ([[("id", DVal.num 2)]], none)] 2 hchain (by decide)).1
  simpa using h

/-- C4: with `paginate = false`, `scanTable` issues exactly one scan request
and resolves with only the items of the first page the service returns, even
when the response carries a continuation token because more items exist. -/
theorem scanTable_no_paginate_single_request (svc : ScanReq → ScanResp)
    (tableName : String) (its : List Item) (lk : Option Item) (fuel : Nat)
    (h : svc ⟨tableName, none⟩ = .ok its lk) :
    scanTable svc tableName false fuel = ([⟨tableName, none⟩], .items its) := by
  simp [scanTable, h]

/-- Witness for C4: the two-page service truncated to its first page. -/
theorem scanTable_no_paginate_single_request_witness :
    (twoPageSvc ⟨"T", none⟩ =
      .ok [[("id", DVal.num 1)]] (some [("id", DVal.num 1)])) ∧
    scanTable twoPageSvc "T" false 5 =
      ([⟨"T", none⟩], .items [[("id", DVal.num 1)]]) := by
  refine ⟨rfl, ?_⟩
  exact scanTable_no_paginate_single_request twoPageSvc "T"
    [[("id", DVal.num 1)]] (some [("id", DVal.num 1)]) 5 rfl

/-- The service's scan responses starting from `startKey` deliver `n` pages
with continuation tokens and then an error. -/
inductive ScanChainFails (svc : ScanReq → ScanResp) (tableName : String) :
    Option Item → Err → Nat → Prop
  | here {s : Option Item} {e : Err} :
      svc ⟨tableName, s⟩ = .err e → ScanChainFails svc tableName s e 0
  | step {s : Option Item} {its : List Item} {t : Item} {e : Err} {n : Nat} :
      svc ⟨tableName, s⟩ = .ok its (some t) →
      ScanChainFails svc tableName (some t) e n →
      ScanChainFails svc tableName s e (n + 1)

theorem scanPaginateLoop_of_chainFails (svc : ScanReq → ScanResp)
    (tableName : String) {s : Option Item} {e : Err} {n : Nat}
    (h : ScanChainFails svc tableName s e n) :
    ∀ fuel : Nat, n < fuel → ∀ acc : List Item,
      (scanPaginateLoop svc tableName fuel s acc).2 = .failure e := by
  induction h with
  | @here s e hresp =>
    intro fuel hfuel acc
    match fuel with
    | 0 => omega
    | f + 1 => simp [scanPaginateLoop, hresp]
  | @step s its t e n hresp htail ih =>
    intro fuel hfuel acc
    match fuel with
    | 0 => omega
    | f + 1 =>
      have hf : n < f := by omega
      simp [scanPaginateLoop, hresp, ih f hf]

/-- C5: when some page request of a paginated scan fails, `scanTable`
rejects with exactly that error, and the items accumulated from earlier
successful pages are not delivered in any form: the outcome is the rejection
alone, and it is the same whatever accumulator the loop carries. -/
theorem scanTable_paginate_error_discards (svc : ScanReq → ScanResp)
    (tableName : String) (e : Err) (n fuel : Nat)
    (h : ScanChainFails svc tableName none e n) (hfuel : n < fuel) :
    (scanTable svc tableName true fuel).2 = .failure e ∧
    (∀ (acc : List Item) (s : Option Item) (m : Nat),
      ScanChainFails svc tableName s e m → m < fuel →
      (scanPaginateLoop svc tableName fuel s acc).2 = .failure e) := by
  constructor
  · have hloop := scanPaginateLoop_of_chainFails svc tableName h fuel hfuel []
    simpa [scanTable] using hloop
  · intro acc s m hm hmf
    exact scanPaginateLoop_of_chainFails svc tableName hm fuel hmf acc

/-- A demonstration scan service that fails on the second page. -/
def failSecondPageSvc : ScanReq → ScanResp := fun r =>
  match r.exclusiveStartKey with
  | none => .ok [[("id", DVal.num 1)]] (some [("id", DVal.num 1)])
  | some _ => .err "ProvisionedThroughputExceededException"

/-- Witness for C5: a scan whose second page request fails. -/
theorem scanTable_paginate_error_discards_witness :
    (ScanChainFails failSecondPageSvc "T" none
        "ProvisionedThroughputExceededException" 1 ∧ 1 < 2) ∧
    (scanTable failSecondPageSvc "T" true 2).2 =
      .failure "ProvisionedThroughputExceededException" := by
  have hfails : ScanChainFails failSecondPageSvc "T" none
      "ProvisionedThroughputExceededException" 1 :=
    ScanChainFails.step rfl (ScanChainFails.here rfl)
  refine ⟨⟨hfails, by decide⟩, ?_⟩
  exact (scanTable_paginate_error_discards failSecondPageSvc "T"
    "ProvisionedThroughputExceededException" 1 2 hfails (by decide)).1

/-- C6: for each of the four operations, an error delivered by the
underlying client is rejected to the caller exactly as delivered: the result
is that same error object, nothing substituted, transformed, or retried (on
error the scan's request trace is the single failing request). -/
theorem client_errors_propagate (e : Err) :
    (∀ (α : Type) (cl : GetParams → Except Err α) (tableName : String)
      (key : Item),
      cl (buildGetParams tableName key) = .error e →
      getItem cl tableName key = .error e) ∧
    (∀ (α : Type) (cl : PutParams → Except Err α) (tableName : String)
      (it : Item) (ex : Option (List (String × DVal)))
      (cmp : Option (List (String × String))),
      cl (buildPutParams tableName it ex cmp) = .error e →
      putItem cl tableName it ex cmp = .error e) ∧
    (∀ (α : Type) (cl : DeleteParams → Except Err α) (tableName : String)
      (key : Item) (ex : Option (List (String × DVal)))
      (cmp : Option (List (String × String))),
      cl (buildDeleteParams tableName key ex cmp) = .error e →
      deleteItem cl tableName key ex cmp = .error e) ∧
    (∀ (svc : ScanReq → ScanResp) (tableName : String) (fuel : Nat),
      svc ⟨tableName, none⟩ = .err e →
      scanTable svc tableName false fuel = ([⟨tableName, none⟩], .failure e)) ∧
    (∀ (svc : ScanReq → ScanResp) (tableName : String) (fuel : Nat)
      (s : Option Item) (acc : List Item),
      svc ⟨tableName, s⟩ = .err e →
      scanPaginateLoop svc tableName (fuel + 1) s acc =
        ([⟨tableName, s⟩], .failure e)) := by
  refine ⟨?_, ?_, ?_, ?_, ?_⟩
  · intro α cl tableName key h
    simp [getItem, h]
  · intro α cl tableName it ex cmp h
    simp [putItem, h]
  · intro α cl tableName key ex cmp h
    simp [deleteItem, h]
  · intro svc tableName fuel h
    simp [scanTable, h]
  · intro svc tableName fuel s acc h
    simp [scanPaginateLoop, h]

/-- Witness for C6: a client that always fails with a concrete error. -/
theorem client_errors_propagate_witness :
    ((fun _ : GetParams => (.error "AccessDeniedException" : Except Err GetData))
        (buildGetParams "T" [("id", DVal.num 1)]) =
      .error "AccessDeniedException") ∧
    getItem (fun _ : GetParams => (.error "AccessDeniedException" : Except Err GetData))
      "T" [("id", DVal.num 1)] = .error "AccessDeniedException" := by
  refine ⟨rfl, ?_⟩
  exact (client_errors_propagate "AccessDeniedException").1 GetData
    (fun _ => .error "AccessDeniedException") "T" [("id", DVal.num 1)] rfl

/-- C10: supplying exactly one of the two optional condition arguments
attaches no condition expression and no placeholder bindings to the built
request, which equals the fully unconditional request, and the operation
behaves identically to the fully unconditional call. -/
theorem one_sided_condition_ignored (tableName : String) (it key : Item)
    (ex : List (String × DVal)) (cmp : List (String × String)) :
    buildPutParams tableName it (some ex) none =
      buildPutParams tableName it none none ∧
    buildPutParams tableName it none (some cmp) =
      buildPutParams tableName it none none ∧
    (buildPutParams tableName it none none).cond = none ∧
    buildDeleteParams tableName key (some ex) none =
      buildDeleteParams tableName key none none ∧
    buildDeleteParams tableName key none (some cmp) =
      buildDeleteParams tableName key none none ∧
    (buildDeleteParams tableName key none none).cond = none ∧
    (∀ (α : Type) (cl : PutParams → Except Err α),
      putItem cl tableName it (some ex) none =
        putItem cl tableName it none none ∧
      putItem cl tableName it none (some cmp) =
        putItem cl tableName it none none) ∧
    (∀ (α : Type) (cl : DeleteParams → Except Err α),
      deleteItem cl tableName key (some ex) none =
        deleteItem cl tableName key none none ∧
      deleteItem cl tableName key none (some cmp) =
        deleteItem cl tableName key none none) := by
  refine ⟨rfl, rfl, rfl, rfl, rfl, rfl, ?_, ?_⟩
  · intro α cl
    exact ⟨rfl, rfl⟩
  · intro α cl
    exact ⟨rfl, rfl⟩

/-! ## The constructor and the shared client configuration -/

/-- The process-wide `AWS.config` state relevant to this adapter: the region
and the dynamodb endpoint override. -/
structure AWSConfig where
  region : Option String
  dynamodbEndpoint : Option String
deriving DecidableEq, Repr

/-- JavaScript truthiness of the constructor's optional string arguments:
`undefined` and `""` are falsy. -/
def truthyStr : Option String → Bool
  | none => false
  | some s => !(s == "")

/-- The constructor's
`AWS.config.update({ ...region && { region }, ...endpoint && { dynamodb: { endpoint } } })`:
merge the truthy arguments into the shared process-wide configuration,
keeping the other fields. -/
def constructAdapter (cfg : AWSConfig) (region endpoint : Option String) :
    AWSConfig :=
  ⟨if truthyStr region then region else cfg.region,
    if truthyStr endpoint then endpoint else cfg.dynamodbEndpoint⟩

/-- Modelled from the spec: the underlying SDK's client configuration is
process-wide, not instance-scoped, so an operation issued by any instance is
governed by the current shared configuration, whichever construction wrote
it last. -/
def operationEffectiveConfig (processConfig : AWSConfig) : AWSConfig :=
  processConfig

/-- C9: construction updates the process-wide shared configuration, so after
a second construction with a different (truthy) region, the configuration
governing the operations of the previously constructed instance carries the
newer region, no longer the one supplied at its own construction. -/
theorem construction_mutates_shared_config (cfg0 : AWSConfig)
    (r1 e1 r2 e2 : Option String) (h1 : truthyStr r1 = true)
    (h2 : truthyStr r2 = true) (hne : r1 ≠ r2) :
    (operationEffectiveConfig
        (constructAdapter (constructAdapter cfg0 r1 e1) r2 e2)).region = r2 ∧
    (operationEffectiveConfig (constructAdapter cfg0 r1 e1)).region = r1 ∧
    (operationEffectiveConfig
        (constructAdapter (constructAdapter cfg0 r1 e1) r2 e2)).region ≠ r1 := by
  refine ⟨?_, ?_, ?_⟩
  · simp [operationEffectiveConfig, constructAdapter, h2]
  · simp [operationEffectiveConfig, constructAdapter, h1]
  · simp only [operationEffectiveConfig, constructAdapter, h2, if_true]
    exact Ne.symm hne

/-- Witness for C9: two constructions with different regions. -/
theorem construction_mutates_shared_config_witness :
    (truthyStr (some "us-east-1") = true ∧ truthyStr (some "ap-south-1") = true ∧
      (some "us-east-1" : Option String) ≠ some "ap-south-1") ∧
    (operationEffectiveConfig
        (constructAdapter (constructAdapter ⟨none, none⟩ (some "us-east-1") none)
          (some "ap-south-1") none)).region = some "ap-south-1" ∧
    (operationEffectiveConfig
        (constructAdapter (constructAdapter ⟨none, none⟩ (some "us-east-1") none)
          (some "ap-south-1") none)).region ≠ some "us-east-1" := by
  refine ⟨⟨by decide, by decide, by decide⟩, ?_, ?_⟩
  · exact (construction_mutates_shared_config ⟨none, none⟩ (some "us-east-1") none
      (some "ap-south-1") none (by decide) (by decide) (by decide)).1
  · exact (construction_mutates_shared_config ⟨none, none⟩ (some "us-east-1") none
      (some "ap-south-1") none (by decide) (by decide) (by decide)).2.2
